import Mathlib

/-!
Verification of the token-validation / rate-limiting core of the
`ha-addons` TRMNL screenshot addon.

The JavaScript source is shallowly embedded: JS strings are modelled as
`List Char` (the development restricts payload fields to printable ASCII,
where one char is one UTF-8 byte), JS numbers that hold epoch
milliseconds as `Int`, byte buffers as `List Nat` with entries below 256,
and the module-level mutable `Map` of the rate limiter as an association
list threaded through explicit state passing.  The ambient wall clock
(`new Date()` / `Date.now()`) is passed in as an explicit `now`
parameter.  Fallible operations return `Option`; the one library
primitive that can throw on attacker-controlled input
(`crypto.timingSafeEqual` on buffers of different length) is modelled in
an `Except` monad so that the `try/catch` wrapper of `validateToken` can
be stated faithfully.
-/

namespace HAAddons

/-- JS strings are modelled as lists of characters. -/
abbrev Str := List Char

/-- The double-quote character, `"` (code point 34). -/
def quoteChar : Char := Char.ofNat 34

/-- The backslash character (code point 92). -/
def backslashChar : Char := Char.ofNat 92

/-- Models `Buffer.from(s)` / `Buffer.from(s, "utf8")`: the UTF-8 bytes of
a string.  Faithful for strings of characters below `0x80`, which is the
only range the development uses (enforced by `asciiSafe` hypotheses). -/
def strBytes (s : Str) : List Nat := s.map Char.toNat

/-- Models `buffer.toString()` (UTF-8 decoding), restricted to
single-byte characters. -/
def bytesStr (bs : List Nat) : Str := bs.map Char.ofNat

/-- Printable one-byte characters: the character class the addon's
payload fields are drawn from (device ids and ISO-8601 timestamps). -/
def asciiSafe (s : Str) : Prop := ∀ c ∈ s, 0x20 ≤ c.toNat ∧ c.toNat < 0x7f

instance (s : Str) : Decidable (asciiSafe s) := by
  unfold asciiSafe; infer_instance

theorem bytesStr_strBytes (s : Str) : bytesStr (strBytes s) = s := by
  induction s with
  | nil => rfl
  | cons c cs ih =>
    simp only [bytesStr, strBytes, List.map_cons] at ih ⊢
    rw [ih, Char.ofNat_toNat]

/-! ### Base64

Models Node's `buffer.toString("base64")` (the encoder) and
`Buffer.from(s, "base64")` (the decoder), the latter restricted to
canonical padded base64 — the only shape the development ever feeds it.
-/

/-- The standard base64 alphabet. -/
def b64Alphabet : Str :=
  "ABCDEFGHIJKLMNOPQRSTUVWXYZabcdefghijklmnopqrstuvwxyz0123456789+/".toList

/-- The base64 digit for a sextet value. -/
def b64Char (n : Nat) : Char := b64Alphabet.getD n 'A'

/-- The sextet value of a base64 digit, `none` for characters outside the
alphabet. -/
def b64Index (c : Char) : Option Nat := b64Alphabet.findIdx? (· = c)

/-- Base64-encode a byte list (canonical, with `=` padding), three input
bytes to four output digits. -/
def base64Encode : List Nat → Str
  | [] => []
  | [a] => [b64Char (a / 4), b64Char (a % 4 * 16), '=', '=']
  | [a, b] => [b64Char (a / 4), b64Char (a % 4 * 16 + b / 16), b64Char (b % 16 * 4), '=']
  | a :: b :: c :: rest =>
      b64Char (a / 4) :: b64Char (a % 4 * 16 + b / 16) ::
      b64Char (b % 16 * 4 + c / 64) :: b64Char (c % 64) :: base64Encode rest

/-- Decode canonical padded base64 (inverse of `base64Encode`);
`none` on anything else. -/
def base64Decode : Str → Option (List Nat)
  | [] => some []
  | c1 :: c2 :: c3 :: c4 :: rest =>
      if c3 = '=' ∧ c4 = '=' ∧ rest = [] then do
        let s1 ← b64Index c1
        let s2 ← b64Index c2
        some [s1 * 4 + s2 / 16]
      else if c4 = '=' ∧ rest = [] then do
        let s1 ← b64Index c1
        let s2 ← b64Index c2
        let s3 ← b64Index c3
        some [s1 * 4 + s2 / 16, s2 % 16 * 16 + s3 / 4]
      else do
        let s1 ← b64Index c1
        let s2 ← b64Index c2
        let s3 ← b64Index c3
        let s4 ← b64Index c4
        let tl ← base64Decode rest
        some ((s1 * 4 + s2 / 16) :: (s2 % 16 * 16 + s3 / 4) :: (s3 % 4 * 64 + s4) :: tl)
  | _ => none

theorem b64Index_b64Char : ∀ n : Fin 64, b64Index (b64Char n.val) = some n.val := by
  decide

theorem b64Char_ne_eq : ∀ n : Fin 64, b64Char n.val ≠ '=' := by
  decide

theorem b64Char_ne_underscore : ∀ n : Fin 64, b64Char n.val ≠ '_' := by
  decide

theorem b64Index_b64Char_of_lt {n : Nat} (h : n < 64) : b64Index (b64Char n) = some n :=
  b64Index_b64Char ⟨n, h⟩

theorem base64_roundtrip : ∀ bs : List Nat, (∀ x ∈ bs, x < 256) →
    base64Decode (base64Encode bs) = some bs
  | [], _ => rfl
  | [a], h => by
    have ha : a < 256 := h a (by simp)
    have h1 : a / 4 < 64 := by omega
    have h2 : a % 4 * 16 < 64 := by omega
    simp only [base64Encode, base64Decode]
    rw [if_pos (by simp)]
    rw [b64Index_b64Char_of_lt h1, b64Index_b64Char_of_lt h2]
    simp only [Option.bind_eq_bind, Option.some_bind, Option.some.injEq, List.cons.injEq,
      and_true]
    omega
  | [a, b], h => by
    have ha : a < 256 := h a (by simp)
    have hb : b < 256 := h b (by simp)
    have h1 : a / 4 < 64 := by omega
    have h2 : a % 4 * 16 + b / 16 < 64 := by omega
    have h3 : b % 16 * 4 < 64 := by omega
    simp only [base64Encode, base64Decode]
    rw [if_neg (by simp [b64Char_ne_eq ⟨b % 16 * 4, h3⟩]), if_pos (by simp)]
    rw [b64Index_b64Char_of_lt h1, b64Index_b64Char_of_lt h2, b64Index_b64Char_of_lt h3]
    simp only [Option.bind_eq_bind, Option.some_bind, Option.some.injEq, List.cons.injEq,
      and_true]
    omega
  | a :: b :: c :: rest, h => by
    have ha : a < 256 := h a (by simp)
    have hb : b < 256 := h b (by simp)
    have hc : c < 256 := h c (by simp)
    have h1 : a / 4 < 64 := by omega
    have h2 : a % 4 * 16 + b / 16 < 64 := by omega
    have h3 : b % 16 * 4 + c / 64 < 64 := by omega
    have h4 : c % 64 < 64 := by omega
    have ih := base64_roundtrip rest (fun x hx => h x (by simp [hx]))
    simp only [base64Encode, base64Decode]
    rw [if_neg (by simp [b64Char_ne_eq ⟨b % 16 * 4 + c / 64, h3⟩]),
      if_neg (by simp [b64Char_ne_eq ⟨c % 64, h4⟩])]
    rw [b64Index_b64Char_of_lt h1, b64Index_b64Char_of_lt h2, b64Index_b64Char_of_lt h3,
      b64Index_b64Char_of_lt h4, ih]
    simp only [Option.bind_eq_bind, Option.some_bind, Option.some.injEq, List.cons.injEq,
      and_true]
    refine ⟨by omega, by omega, by omega⟩

theorem base64Encode_no_underscore : ∀ bs : List Nat, (∀ x ∈ bs, x < 256) →
    '_' ∉ base64Encode bs
  | [], _ => by simp [base64Encode]
  | [a], h => by
    have ha : a < 256 := h a (by simp)
    simp only [base64Encode, List.mem_cons, List.not_mem_nil, or_false]
    push_neg
    refine ⟨?_, ?_, by decide, by decide⟩
    · exact fun e => b64Char_ne_underscore ⟨a / 4, by omega⟩ e.symm
    · exact fun e => b64Char_ne_underscore ⟨a % 4 * 16, by omega⟩ e.symm
  | [a, b], h => by
    have ha : a < 256 := h a (by simp)
    have hb : b < 256 := h b (by simp)
    simp only [base64Encode, List.mem_cons, List.not_mem_nil, or_false]
    push_neg
    refine ⟨?_, ?_, ?_, by decide⟩
    · exact fun e => b64Char_ne_underscore ⟨a / 4, by omega⟩ e.symm
    · exact fun e => b64Char_ne_underscore ⟨a % 4 * 16 + b / 16, by omega⟩ e.symm
    · exact fun e => b64Char_ne_underscore ⟨b % 16 * 4, by omega⟩ e.symm
  | a :: b :: c :: rest, h => by
    have ha : a < 256 := h a (by simp)
    have hb : b < 256 := h b (by simp)
    have hc : c < 256 := h c (by simp)
    have ih := base64Encode_no_underscore rest (fun x hx => h x (by simp [hx]))
    simp only [base64Encode, List.mem_cons]
    push_neg
    refine ⟨?_, ?_, ?_, ?_, ih⟩
    · exact fun e => b64Char_ne_underscore ⟨a / 4, by omega⟩ e.symm
    · exact fun e => b64Char_ne_underscore ⟨a % 4 * 16 + b / 16, by omega⟩ e.symm
    · exact fun e => b64Char_ne_underscore ⟨b % 16 * 4 + c / 64, by omega⟩ e.symm
    · exact fun e => b64Char_ne_underscore ⟨c % 64, by omega⟩ e.symm

/-! ### String splitting

Models the JS `String.prototype.split` with a single-character
separator, as used by `token.split(TOKEN_SEPARATOR)` in `auth.js`. -/

/-- Split a string at every occurrence of `sep` (occurrences are
consumed; `n` separators yield `n + 1` fields). -/
def splitChar (sep : Char) : Str → List Str
  | [] => [[]]
  | c :: rest =>
    match splitChar sep rest with
    | [] => if c = sep then [[], []] else [[c]]
    | h :: t => if c = sep then [] :: h :: t else (c :: h) :: t

theorem splitChar_ne_nil (sep : Char) (s : Str) : splitChar sep s ≠ [] := by
  cases s with
  | nil => simp [splitChar]
  | cons c rest =>
    simp only [splitChar]
    split <;> split <;> simp

theorem splitChar_no_sep (sep : Char) (s : Str) (h : sep ∉ s) : splitChar sep s = [s] := by
  induction s with
  | nil => rfl
  | cons c rest ih =>
    have hc : c ≠ sep := fun e => h (by simp [e])
    have hr : sep ∉ rest := fun m => h (by simp [m])
    simp only [splitChar, ih hr]
    rw [if_neg hc]

theorem splitChar_append_sep (sep : Char) (a b : Str) (ha : sep ∉ a) :
    splitChar sep (a ++ sep :: b) = a :: splitChar sep b := by
  induction a with
  | nil =>
    simp only [List.nil_append, splitChar]
    cases hs : splitChar sep b with
    | nil => exact absurd hs (splitChar_ne_nil sep b)
    | cons h t => simp
  | cons c rest ih =>
    have hc : c ≠ sep := fun e => ha (by simp [e])
    have hr : sep ∉ rest := fun m => ha (by simp [m])
    simp only [List.cons_append, splitChar, List.append_eq, ih hr]
    rw [if_neg hc]

theorem splitChar_three (sep : Char) (a b c : Str)
    (ha : sep ∉ a) (hb : sep ∉ b) (hc : sep ∉ c) :
    splitChar sep (a ++ sep :: b ++ sep :: c) = [a, b, c] := by
  rw [List.append_assoc, List.cons_append]
  rw [splitChar_append_sep sep a _ ha, splitChar_append_sep sep b c hb,
    splitChar_no_sep sep c hc]

/-! ### The token payload and its JSON wire form

`TokenPayload` is the object signed into a token (`device_id`,
`issued_at`, `expires_at`, all strings).  `stringifyPayload` models
`JSON.stringify` on exactly that object shape (the key order of the
object literals in the issuing code); `parsePayload` models
`JSON.parse` followed by the three field reads, restricted to the flat
string-valued object grammar the token protocol uses. -/

structure TokenPayload where
  device_id : Str
  issued_at : Str
  expires_at : Str
deriving DecidableEq

/-- JSON string escaping as `JSON.stringify` performs it on printable
ASCII content: quote and backslash are escaped, everything else is
emitted unchanged. -/
def jsonEscape : Str → Str
  | [] => []
  | c :: rest => (if c = quoteChar ∨ c = backslashChar then [backslashChar, c] else [c])
      ++ jsonEscape rest

/-- The literal chunk that opens the payload object, up to and including
the opening quote of the `device_id` value. -/
def litDeviceId : Str := '\x7b' :: (quoteChar :: "device_id".toList) ++ [quoteChar, ':', quoteChar]

/-- The literal chunk between the `device_id` value and the `issued_at`
value. -/
def litIssuedAt : Str := ',' :: (quoteChar :: "issued_at".toList) ++ [quoteChar, ':', quoteChar]

/-- The literal chunk between the `issued_at` value and the `expires_at`
value. -/
def litExpiresAt : Str := ',' :: (quoteChar :: "expires_at".toList) ++ [quoteChar, ':', quoteChar]

/-- Models `JSON.stringify({device_id, issued_at, expires_at})`. -/
def stringifyPayload (p : TokenPayload) : Str :=
  litDeviceId ++ jsonEscape p.device_id ++ quoteChar :: litIssuedAt
    ++ jsonEscape p.issued_at ++ quoteChar :: litExpiresAt
    ++ jsonEscape p.expires_at ++ [quoteChar, '\x7d']

/-- Consume an expected literal from the front of the input. -/
def dropLit : Str → Str → Option Str
  | [], s => some s
  | _ :: _, [] => none
  | l :: ls, c :: cs => if c = l then dropLit ls cs else none

/-- Parse a JSON string body (the input starts right after the opening
quote): content up to the unescaped closing quote, plus the remainder of
the input.  Only the two escapes the encoder emits are accepted. -/
def parseJsonString : Str → Option (Str × Str)
  | [] => none
  | c :: rest =>
    if c = quoteChar then some ([], rest)
    else if c = backslashChar then
      match rest with
      | [] => none
      | e :: rest2 =>
        if e = quoteChar ∨ e = backslashChar then
          match parseJsonString rest2 with
          | none => none
          | some (s, r) => some (e :: s, r)
        else none
    else
      match parseJsonString rest with
      | none => none
      | some (s, r) => some (c :: s, r)

/-- Models `JSON.parse` of a token payload followed by the reads of its
three fields, on the flat object grammar the issuer emits; everything
else is `none` (in JS, a thrown `SyntaxError` that the caller catches,
or an `undefined` field that fails the subsequent checks). -/
def parsePayload (s : Str) : Option TokenPayload := do
  let s ← dropLit litDeviceId s
  let (d, s) ← parseJsonString s
  let s ← dropLit litIssuedAt s
  let (i, s) ← parseJsonString s
  let s ← dropLit litExpiresAt s
  let (e, s) ← parseJsonString s
  let s ← dropLit ['\x7d'] s
  if s.isEmpty then some ⟨d, i, e⟩ else none

theorem dropLit_append (l r : Str) : dropLit l (l ++ r) = some r := by
  induction l with
  | nil => rfl
  | cons c ls ih => simp [dropLit, ih]

theorem parseJsonString_escape (s r : Str) :
    parseJsonString (jsonEscape s ++ quoteChar :: r) = some (s, r) := by
  induction s with
  | nil =>
    simp only [jsonEscape, List.nil_append]
    unfold parseJsonString
    simp
  | cons c rest ih =>
    by_cases hc : c = quoteChar ∨ c = backslashChar
    · simp only [jsonEscape, if_pos hc, List.cons_append, List.nil_append]
      unfold parseJsonString
      have hbq : ¬(backslashChar = quoteChar) := by decide
      rw [if_neg hbq, if_pos rfl]
      simp only [if_pos hc, ih]
    · have hc' : ¬(c = quoteChar) ∧ ¬(c = backslashChar) := by
        constructor <;> intro e <;> exact hc (by simp [e])
      simp only [jsonEscape, if_neg hc, List.cons_append, List.nil_append]
      unfold parseJsonString
      rw [if_neg hc'.1, if_neg hc'.2]
      simp only [ih]

theorem parsePayload_stringify (p : TokenPayload) :
    parsePayload (stringifyPayload p) = some p := by
  unfold parsePayload stringifyPayload
  rw [show litDeviceId ++ jsonEscape p.device_id ++ quoteChar :: litIssuedAt
      ++ jsonEscape p.issued_at ++ quoteChar :: litExpiresAt
      ++ jsonEscape p.expires_at ++ [quoteChar, '\x7d']
    = litDeviceId ++ (jsonEscape p.device_id ++ quoteChar :: (litIssuedAt
      ++ (jsonEscape p.issued_at ++ quoteChar :: (litExpiresAt
      ++ (jsonEscape p.expires_at ++ quoteChar :: ['\x7d']))))) by simp]
  rw [dropLit_append]
  simp only [Option.bind_eq_bind, Option.some_bind]
  rw [parseJsonString_escape]
  simp only [Option.some_bind]
  rw [dropLit_append]
  simp only [Option.some_bind]
  rw [parseJsonString_escape]
  simp only [Option.some_bind]
  rw [dropLit_append]
  simp only [Option.some_bind]
  rw [parseJsonString_escape]
  simp only [Option.some_bind]
  simp [dropLit]

/-! ### Timestamps

Models `new Date(s).getTime()` for the ISO-8601 UTC form
`YYYY-MM-DDTHH:MM:SS.mmmZ` that `Date.prototype.toISOString` emits and
the token protocol uses; every other string is `none` (an `Invalid
Date`, whose `NaN` value makes every `<`/`>` comparison false — the
embedding branches on `Option` accordingly at each use site). -/

/-- Numeric value of a decimal digit character. -/
def digitVal (c : Char) : Option Nat :=
  if '0' ≤ c ∧ c ≤ '9' then some (c.toNat - 48) else none

/-- Days from 1970-01-01 to year `y` (≥ 1), month `m` (1–12), day `d`
of the proleptic Gregorian calendar. -/
def daysFromCivil (y m d : Nat) : Int :=
  let y' := if m ≤ 2 then y - 1 else y
  let era := y' / 400
  let yoe := y' % 400
  let mp := (m + 9) % 12
  let doy := (153 * mp + 2) / 5 + (d - 1)
  let doe := yoe * 365 + yoe / 4 - yoe / 100 + doy
  (era * 146097 + doe : Int) - 719468

/-- Two decimal digits of `s` starting at index `i`. -/
def digits2 (s : Str) (i : Nat) : Option Nat := do
  let a ← digitVal (s.getD i ' ')
  let b ← digitVal (s.getD (i + 1) ' ')
  some (a * 10 + b)

/-- Three decimal digits of `s` starting at index `i`. -/
def digits3 (s : Str) (i : Nat) : Option Nat := do
  let a ← digits2 s i
  let b ← digitVal (s.getD (i + 2) ' ')
  some (a * 10 + b)

/-- Four decimal digits of `s` starting at index `i`. -/
def digits4 (s : Str) (i : Nat) : Option Nat := do
  let a ← digits2 s i
  let b ← digits2 s (i + 2)
  some (a * 100 + b)

/-- Epoch milliseconds of an ISO-8601 UTC timestamp string
(`YYYY-MM-DDTHH:MM:SS.mmmZ`), `none` for anything the restricted
grammar rejects. -/
def jsDateValue (s : Str) : Option Int := do
  if s.length = 24 ∧ s.getD 4 ' ' = '-' ∧ s.getD 7 ' ' = '-' ∧ s.getD 10 ' ' = 'T'
      ∧ s.getD 13 ' ' = ':' ∧ s.getD 16 ' ' = ':' ∧ s.getD 19 ' ' = '.'
      ∧ s.getD 23 ' ' = 'Z' then
    let y ← digits4 s 0
    let mo ← digits2 s 5
    let dd ← digits2 s 8
    let hh ← digits2 s 11
    let mi ← digits2 s 14
    let ss ← digits2 s 17
    let ms ← digits3 s 20
    if 1 ≤ y ∧ 1 ≤ mo ∧ mo ≤ 12 ∧ 1 ≤ dd ∧ dd ≤ 31 ∧ hh ≤ 23 ∧ mi ≤ 59 ∧ ss ≤ 59 then
      some (daysFromCivil y mo dd * 86400000 + hh * 3600000 + mi * 60000 + ss * 1000 + ms)
    else none
  else none

/-- `Math.round(n / d)` for integer `n` and positive integer `d`:
floor of `n / d + 1 / 2`, as JS rounds. -/
def jsRoundDiv (n d : Int) : Int := Int.fdiv (2 * n + d) (2 * d)

/-! ### SHA-256 and HMAC

Models `crypto.createHmac("sha256", secret).update(msg).digest("hex")`:
the full FIPS 180-4 SHA-256 compression over `Nat` words reduced mod
`2 ^ 32`, composed into RFC 2104 HMAC, with lowercase-hex output. -/

/-- Reduce to a 32-bit word. -/
def w32 (n : Nat) : Nat := n % 4294967296

/-- Rotate a 32-bit word right by `r`. -/
def rotr32 (r x : Nat) : Nat := x / 2 ^ r + x % 2 ^ r * 2 ^ (32 - r)

/-- SHA-256 `Ch(x,y,z)`. -/
def shaCh (x y z : Nat) : Nat := Nat.xor (Nat.land x y) (Nat.land (Nat.xor x 4294967295) z)

/-- SHA-256 `Maj(x,y,z)`. -/
def shaMaj (x y z : Nat) : Nat :=
  Nat.xor (Nat.xor (Nat.land x y) (Nat.land x z)) (Nat.land y z)

/-- SHA-256 `Σ0`. -/
def bsig0 (x : Nat) : Nat := Nat.xor (Nat.xor (rotr32 2 x) (rotr32 13 x)) (rotr32 22 x)

/-- SHA-256 `Σ1`. -/
def bsig1 (x : Nat) : Nat := Nat.xor (Nat.xor (rotr32 6 x) (rotr32 11 x)) (rotr32 25 x)

/-- SHA-256 `σ0`. -/
def ssig0 (x : Nat) : Nat := Nat.xor (Nat.xor (rotr32 7 x) (rotr32 18 x)) (x / 8)

/-- SHA-256 `σ1`. -/
def ssig1 (x : Nat) : Nat := Nat.xor (Nat.xor (rotr32 17 x) (rotr32 19 x)) (x / 1024)

/-- The 64 SHA-256 round constants of FIPS 180-4 (decimal). -/
def sha256K : List Nat :=
  [1116352408, 1899447441, 3049323471, 3921009573, 961987163, 1508970993,
   2453635748, 2870763221, 3624381080, 310598401, 607225278, 1426881987,
   1925078388, 2162078206, 2614888103, 3248222580, 3835390401, 4022224774,
   264347078, 604807628, 770255983, 1249150122, 1555081692, 1996064986,
   2554220882, 2821834349, 2952996808, 3210313671, 3336571891, 3584528711,
   113926993, 338241895, 666307205, 773529912, 1294757372, 1396182291,
   1695183700, 1986661051, 2177026350, 2456956037, 2730485921, 2820302411,
   3259730800, 3345764771, 3516065817, 3600352804, 4094571909, 275423344,
   430227734, 506948616, 659060556, 883997877, 958139571, 1322822218,
   1537002063, 1747873779, 1955562222, 2024104815, 2227730452, 2361852424,
   2428436474, 2756734187, 3204031479, 3329325298]

/-- The SHA-256 initial hash value of FIPS 180-4 (decimal), as a list of
eight words. -/
def sha256H0 : List Nat :=
  [1779033703, 3144134277, 1013904242, 2773480762,
   1359893119, 2600822924, 528734635, 1541459225]

/-- The eight working variables of the SHA-256 compression loop. -/
structure Sha2State where
  a : Nat
  b : Nat
  c : Nat
  d : Nat
  e : Nat
  f : Nat
  g : Nat
  h : Nat

/-- One round of the SHA-256 compression loop. -/
def sha256Round (st : Sha2State) (k w : Nat) : Sha2State :=
  let t1 := w32 (st.h + bsig1 st.e + shaCh st.e st.f st.g + k + w)
  let t2 := w32 (bsig0 st.a + shaMaj st.a st.b st.c)
  ⟨w32 (t1 + t2), st.a, st.b, st.c, w32 (st.d + t1), st.e, st.f, st.g⟩

/-- The next word of the message schedule, from the last 16 words. -/
def nextW (w : List Nat) : Nat :=
  let n := w.length
  w32 (w.getD (n - 16) 0 + ssig0 (w.getD (n - 15) 0) + w.getD (n - 7) 0 + ssig1 (w.getD (n - 2) 0))

/-- Extend the 16-word schedule by `k` more words. -/
def extendW : Nat → List Nat → List Nat
  | 0, w => w
  | k + 1, w => extendW k (w ++ [nextW w])

/-- Big-endian bytes to 32-bit words, four at a time. -/
def bytesToWords : List Nat → List Nat
  | b0 :: b1 :: b2 :: b3 :: rest =>
      (b0 * 16777216 + b1 * 65536 + b2 * 256 + b3) :: bytesToWords rest
  | _ => []

/-- Big-endian bytes of a 32-bit word. -/
def wordBytes (w : Nat) : List Nat := [w / 16777216 % 256, w / 65536 % 256, w / 256 % 256, w % 256]

/-- Process one 64-byte chunk into the running hash value. -/
def sha256Compress (hv : List Nat) (chunk : List Nat) : List Nat :=
  let ws := extendW 48 (bytesToWords chunk)
  let init : Sha2State := ⟨hv.getD 0 0, hv.getD 1 0, hv.getD 2 0, hv.getD 3 0,
    hv.getD 4 0, hv.getD 5 0, hv.getD 6 0, hv.getD 7 0⟩
  let fin := (List.zip sha256K ws).foldl (fun st kw => sha256Round st kw.1 kw.2) init
  [w32 (hv.getD 0 0 + fin.a), w32 (hv.getD 1 0 + fin.b), w32 (hv.getD 2 0 + fin.c),
   w32 (hv.getD 3 0 + fin.d), w32 (hv.getD 4 0 + fin.e), w32 (hv.getD 5 0 + fin.f),
   w32 (hv.getD 6 0 + fin.g), w32 (hv.getD 7 0 + fin.h)]

/-- The eight big-endian bytes of the bit length, for the padding tail. -/
def lenBytes (len : Nat) : List Nat :=
  let b := len * 8
  [b / 2 ^ 56 % 256, b / 2 ^ 48 % 256, b / 2 ^ 40 % 256, b / 2 ^ 32 % 256,
   b / 2 ^ 24 % 256, b / 2 ^ 16 % 256, b / 2 ^ 8 % 256, b % 256]

/-- FIPS 180-4 message padding to a multiple of 64 bytes. -/
def sha256Pad (msg : List Nat) : List Nat :=
  let len := msg.length
  let padLen := (64 - (len + 9) % 64) % 64
  msg ++ 128 :: (List.replicate padLen 0 ++ lenBytes len)

/-- Split a byte list into 64-byte chunks. -/
def chunks64 (l : List Nat) : List (List Nat) :=
  match l with
  | [] => []
  | c :: rest => ((c :: rest).take 64) :: chunks64 ((c :: rest).drop 64)
termination_by l.length
decreasing_by
  simp only [List.length_drop, List.length_cons]
  omega

/-- SHA-256 of a byte list, as 32 bytes. -/
def sha256 (msg : List Nat) : List Nat :=
  let hs := (chunks64 (sha256Pad msg)).foldl sha256Compress sha256H0
  hs.foldr (fun w acc => wordBytes w ++ acc) []

/-- RFC 2104 HMAC-SHA256 over byte lists. -/
def hmacSha256 (key msg : List Nat) : List Nat :=
  let k0 := if 64 < key.length then sha256 key else key
  let kp := k0 ++ List.replicate (64 - k0.length) 0
  let ipad := kp.map (fun b => Nat.xor b 54)
  let opad := kp.map (fun b => Nat.xor b 92)
  sha256 (opad ++ sha256 (ipad ++ msg))

/-- Lowercase hex digit for a nibble. -/
def hexDigit (n : Nat) : Char := "0123456789abcdef".toList.getD n '0'

/-- Lowercase hex rendering of a byte list (`digest("hex")`). -/
def bytesHex (bs : List Nat) : Str :=
  bs.foldr (fun b acc => hexDigit (b / 16) :: hexDigit (b % 16) :: acc) []

/-- Models `crypto.createHmac("sha256", secret).update(msg).digest("hex")`
on ASCII strings. -/
def hmacSha256Hex (secret msg : Str) : Str := bytesHex (hmacSha256 (strBytes secret) (strBytes msg))

theorem length_sha256Compress (hv chunk : List Nat) : (sha256Compress hv chunk).length = 8 := rfl

theorem length_foldl_sha256Compress (chunks : List (List Nat)) (hv : List Nat)
    (h : hv.length = 8) : (chunks.foldl sha256Compress hv).length = 8 := by
  induction chunks generalizing hv with
  | nil => exact h
  | cons c cs ih => exact ih _ (length_sha256Compress _ _)

theorem length_foldr_wordBytes (l : List Nat) :
    (l.foldr (fun w acc => wordBytes w ++ acc) []).length = 4 * l.length := by
  induction l with
  | nil => rfl
  | cons w ws ih =>
    simp only [List.foldr_cons, List.length_append, ih, List.length_cons]
    have h4 : (wordBytes w).length = 4 := rfl
    omega

theorem mem_foldr_wordBytes_lt (l : List Nat) :
    ∀ b ∈ l.foldr (fun w acc => wordBytes w ++ acc) [], b < 256 := by
  induction l with
  | nil => simp
  | cons w ws ih =>
    intro b hb
    simp only [List.foldr_cons, List.mem_append] at hb
    rcases hb with hb | hb
    · simp only [wordBytes, List.mem_cons, List.not_mem_nil, or_false] at hb
      rcases hb with rfl | rfl | rfl | rfl <;> omega
    · exact ih b hb

theorem length_sha256 (msg : List Nat) : (sha256 msg).length = 32 := by
  show (((chunks64 (sha256Pad msg)).foldl sha256Compress sha256H0).foldr
    (fun w acc => wordBytes w ++ acc) []).length = 32
  rw [length_foldr_wordBytes,
    length_foldl_sha256Compress (chunks64 (sha256Pad msg)) sha256H0 (by rfl)]

theorem sha256_bytes_lt (msg : List Nat) : ∀ b ∈ sha256 msg, b < 256 := by
  unfold sha256
  exact mem_foldr_wordBytes_lt _

theorem hexDigit_ne_underscore : ∀ n : Fin 16, hexDigit n.val ≠ '_' := by decide

theorem bytesHex_no_underscore (bs : List Nat) (h : ∀ b ∈ bs, b < 256) :
    '_' ∉ bytesHex bs := by
  induction bs with
  | nil => simp [bytesHex]
  | cons b rest ih =>
    have hb : b < 256 := h b (by simp)
    have h1 : b / 16 < 16 := by omega
    have h2 : b % 16 < 16 := by omega
    simp only [bytesHex, List.foldr_cons, List.mem_cons]
    push_neg
    refine ⟨?_, ?_, ?_⟩
    · exact fun e => hexDigit_ne_underscore ⟨b / 16, h1⟩ e.symm
    · exact fun e => hexDigit_ne_underscore ⟨b % 16, h2⟩ e.symm
    · exact ih (fun x hx => h x (by simp [hx]))

theorem hmacSha256Hex_no_underscore (secret msg : Str) :
    '_' ∉ hmacSha256Hex secret msg :=
  bytesHex_no_underscore _ (sha256_bytes_lt _)

theorem length_bytesHex (bs : List Nat) : (bytesHex bs).length = 2 * bs.length := by
  induction bs with
  | nil => rfl
  | cons b rest ih => simp [bytesHex, List.foldr_cons] at ih ⊢; omega

theorem length_hmacSha256 (key msg : List Nat) : (hmacSha256 key msg).length = 32 :=
  length_sha256 _

theorem length_hmacSha256Hex (secret msg : Str) : (hmacSha256Hex secret msg).length = 64 := by
  unfold hmacSha256Hex
  rw [length_bytesHex, length_hmacSha256]

/-! ### Token validation (`auth.js`)

`validateToken` below is the embedding of `validateToken(token,
deviceId, secret)` from `auth.js`: parameter order, check order and all
rejection paths follow the source line by line.  The body is written in
an `Except` monad whose single error is the exception
`crypto.timingSafeEqual` throws when its buffers differ in length; the
exported function is the `try/catch` wrapper that maps any such
exception to `null`. -/

/-- The fixed literal `TOKEN_PREFIX = "token"` of the wire format. -/
def tokenTag : Str := "token".toList

/-- The object a successful validation returns: the three payload
fields plus the computed token age.  `age_seconds = none` models the
`NaN` that arises when `issued_at` does not parse as a date. -/
structure TokenInfo where
  device_id : Str
  issued_at : Str
  expires_at : Str
  age_seconds : Option Int
deriving DecidableEq

/-- The one exception reachable from attacker-controlled input inside
the `try` block of `validateToken`. -/
inductive JsError
  | timingSafeLengthMismatch
deriving DecidableEq

/-- Models `crypto.timingSafeEqual(a, b)`: throws when the buffer
lengths differ, otherwise compares contents (the constant-time aspect
has no observable counterpart in the embedding). -/
def timingSafeEqual (a b : List Nat) : Except JsError Bool :=
  if a.length = b.length then .ok (decide (a = b)) else .error .timingSafeLengthMismatch

/-- The body of `validateToken` (everything inside its `try`). -/
def validateTokenBody (now : Int) (token deviceId secret : Str) :
    Except JsError (Option TokenInfo) := do
  if token = [] ∨ deviceId = [] ∨ secret = [] then return none
  let parts := splitChar '_' token
  if ¬(parts.length = 3 ∧ parts.getD 0 [] = tokenTag) then return none
  let payloadB64 := parts.getD 1 []
  let signature := parts.getD 2 []
  match (base64Decode payloadB64).bind (fun bytes => parsePayload (bytesStr bytes)) with
  | none => return none
  | some payload =>
    if ¬(payload.device_id = deviceId) then return none
    let expectedSignature := hmacSha256Hex secret payloadB64
    let ok ← timingSafeEqual (strBytes signature) (strBytes expectedSignature)
    if ok = false then return none
    let expired : Bool :=
      match jsDateValue payload.expires_at with
      | none => false
      | some te => decide (te < now)
    if expired then return none
    let age := (jsDateValue payload.issued_at).map (fun iv => jsRoundDiv (now - iv) 1000)
    return some ⟨payload.device_id, payload.issued_at, payload.expires_at, age⟩

/-- `validateToken` with its outer `try/catch`: any exception from the
body resolves to `null`. -/
def validateToken (now : Int) (token deviceId secret : Str) : Option TokenInfo :=
  match validateTokenBody now token deviceId secret with
  | .ok r => r
  | .error _ => none

/-- Models `shouldRotateToken(tokenInfo)`: `true` for a null result,
otherwise `true` exactly when less than 6 hours remain before
`expires_at` (an unparseable date yields `NaN`, whose comparison is
false). -/
def shouldRotateToken (now : Int) (tokenInfo : Option TokenInfo) : Bool :=
  match tokenInfo with
  | none => true
  | some info =>
    match jsDateValue info.expires_at with
    | none => false
    | some te => decide (te - now < 6 * 60 * 60 * 1000)

/-- Token issuance (`createMockToken` in the test setup, and the
protocol's `encode`): serialize the payload, base64 it, sign the base64
segment, concatenate the three `_`-separated segments. -/
def encodeToken (p : TokenPayload) (secret : Str) : Str :=
  let payloadJson := stringifyPayload p
  let payloadB64 := base64Encode (strBytes payloadJson)
  let signature := hmacSha256Hex secret payloadB64
  tokenTag ++ '_' :: payloadB64 ++ '_' :: signature

/-! ### The rate limiter (`TokenRateLimiter` in `auth.js`)

The mutable `Map` is an association list with unique keys; every method
takes the state and returns the updated state. -/

/-- One entry of the attempts map: `{count, firstTime}`. -/
structure RateLimitEntry where
  count : Nat
  firstTime : Int
deriving DecidableEq

/-- The `TokenRateLimiter` class: configuration plus the attempts map. -/
structure TokenRateLimiter where
  maxAttempts : Nat
  windowMs : Int
  attempts : List (Str × RateLimitEntry)
deriving DecidableEq

/-- `Map.prototype.get`. -/
def lookupEntry : List (Str × RateLimitEntry) → Str → Option RateLimitEntry
  | [], _ => none
  | (k, e) :: rest, key => if k = key then some e else lookupEntry rest key

/-- `Map.prototype.set` (replace in place, append if absent). -/
def setEntry : List (Str × RateLimitEntry) → Str → RateLimitEntry →
    List (Str × RateLimitEntry)
  | [], key, v => [(key, v)]
  | (k, e) :: rest, key, v =>
      if k = key then (key, v) :: rest else (k, e) :: setEntry rest key v

/-- `Map.prototype.delete`. -/
def delEntry (m : List (Str × RateLimitEntry)) (key : Str) : List (Str × RateLimitEntry) :=
  m.filter (fun kv => decide (kv.1 ≠ key))

/-- `isAllowed(deviceId)`: first attempt records `{count: 1, firstTime:
now}`; an elapsed window resets the entry; a saturated entry denies
without mutation; otherwise the count is incremented. Returns the
boolean result and the updated limiter. -/
def TokenRateLimiter.isAllowed (rl : TokenRateLimiter) (deviceId : Str) (now : Int) :
    Bool × TokenRateLimiter :=
  match lookupEntry rl.attempts deviceId with
  | none => (true, { rl with attempts := setEntry rl.attempts deviceId ⟨1, now⟩ })
  | some attempt =>
    if rl.windowMs < now - attempt.firstTime then
      (true, { rl with attempts := setEntry rl.attempts deviceId ⟨1, now⟩ })
    else if rl.maxAttempts ≤ attempt.count then
      (false, rl)
    else
      let grown := setEntry rl.attempts deviceId ⟨attempt.count + 1, attempt.firstTime⟩
      (true, { rl with attempts := grown })

/-- `getRemainingAttempts(deviceId)` (`Math.max(0, max - count)` is
truncated subtraction on `Nat`). -/
def TokenRateLimiter.getRemainingAttempts (rl : TokenRateLimiter) (deviceId : Str)
    (now : Int) : Nat :=
  match lookupEntry rl.attempts deviceId with
  | none => rl.maxAttempts
  | some attempt =>
    if rl.windowMs < now - attempt.firstTime then rl.maxAttempts
    else rl.maxAttempts - attempt.count

/-- `reset(deviceId)`. -/
def TokenRateLimiter.reset (rl : TokenRateLimiter) (deviceId : Str) : TokenRateLimiter :=
  { rl with attempts := delEntry rl.attempts deviceId }

/-- `cleanup()`: drop entries whose window started more than
`2 * windowMs` ago. -/
def TokenRateLimiter.cleanup (rl : TokenRateLimiter) (now : Int) : TokenRateLimiter :=
  { rl with attempts :=
      rl.attempts.filter (fun kv => decide (now - kv.2.firstTime ≤ rl.windowMs * 2)) }

/-- A sequence of `isAllowed` calls for one key at the given times,
collecting the results and threading the state. -/
def isAllowedRun (rl : TokenRateLimiter) (k : Str) : List Int → List Bool × TokenRateLimiter
  | [] => ([], rl)
  | t :: ts =>
    let step := rl.isAllowed k t
    let rest := isAllowedRun step.2 k ts
    (step.1 :: rest.1, rest.2)

/-- The module-level singleton `tokenRateLimiter = new TokenRateLimiter()`
(`auth.js` line 222), with the constructor defaults `maxAttempts = 10`,
`windowMs = 60000` and an empty attempts map. -/
def tokenRateLimiter : TokenRateLimiter := ⟨10, 60000, []⟩

/-- The limiter instance the image-serving endpoint
`GET /trmnl/screenshot/:device_id` consults: the same module-level
`tokenRateLimiter` singleton (the route handler calls
`tokenRateLimiter.isAllowed(deviceId)` directly). -/
def screenshotEndpointLimiter : TokenRateLimiter := tokenRateLimiter

/-! ### The image-serving route handler

Embedding of `app.get("/trmnl/screenshot/:device_id")` from the server
module, restricted to its decision logic: which response class is sent
and whether `validateToken` (the HMAC work) was invoked.  Storage is an
external collaborator, passed in as the `screenshot` argument. -/

/-- The response classes of the route handler (400, 429, 401, 404, 200). -/
inductive HttpOutcome
  | badRequest
  | rateLimited
  | unauthorized
  | notFound
  | served (rotate : Bool)
deriving DecidableEq

/-- The observable result of one request: response class, whether
`validateToken` was called, and the limiter state afterwards. -/
structure HandlerResult where
  outcome : HttpOutcome
  validateCalled : Bool
  limiter : TokenRateLimiter
deriving DecidableEq

/-- JS regex `\s` on the characters that occur in HTTP headers. -/
def isJsWhitespace (c : Char) : Bool :=
  decide (c = ' ' ∨ c = '\t' ∨ c = '\n' ∨ c = '\r')

/-- The literal `Bearer` of the authorization scheme. -/
def bearerLit : Str := "Bearer".toList

/-- Models `authHeader.match(/^Bearer\s+(.+)$/)`: the literal `Bearer`,
at least one whitespace character, then the non-empty remainder as the
captured token. -/
def bearerToken (h : Str) : Option Str :=
  match dropLit bearerLit h with
  | none => none
  | some rest =>
    let ws := rest.takeWhile isJsWhitespace
    let tok := rest.dropWhile isJsWhitespace
    if ws = [] ∨ tok = [] then none else some tok

/-- The route handler: missing device id → 400; rate limit → 429;
missing/invalid authorization → 401; valid token → rotation check, then
serve or 404. -/
def screenshotHandler (rl : TokenRateLimiter) (deviceId : Str) (authHeader : Str)
    (secret : Str) (now : Int) (screenshot : Option (List Nat)) : HandlerResult :=
  if deviceId = [] then ⟨.badRequest, false, rl⟩
  else
    let step := rl.isAllowed deviceId now
    if step.1 = false then ⟨.rateLimited, false, step.2⟩
    else
      match bearerToken authHeader with
      | none => ⟨.unauthorized, false, step.2⟩
      | some token =>
        match validateToken now token deviceId secret with
        | none => ⟨.unauthorized, true, step.2⟩
        | some info =>
          let rotate := shouldRotateToken now (some info)
          match screenshot with
          | none => ⟨.notFound, true, step.2⟩
          | some _ => ⟨.served rotate, true, step.2⟩

/-! ### Evaluation of `validateToken` on issued tokens -/

/-- The expiry test of `validateToken` (`now > new Date(expires_at)`;
an unparseable date is `NaN`, whose comparison is false). -/
def expiredB (now : Int) (p : TokenPayload) : Bool :=
  match jsDateValue p.expires_at with
  | none => false
  | some te => decide (te < now)

/-- The `TokenInfo` a successful validation of an issued token returns. -/
def expectedInfo (now : Int) (p : TokenPayload) : TokenInfo :=
  ⟨p.device_id, p.issued_at, p.expires_at,
   (jsDateValue p.issued_at).map (fun iv => jsRoundDiv (now - iv) 1000)⟩

theorem jsonEscape_subset (s : Str) : ∀ c ∈ jsonEscape s, c = backslashChar ∨ c ∈ s := by
  induction s with
  | nil => simp [jsonEscape]
  | cons x xs ih =>
    intro c hc
    simp only [jsonEscape] at hc
    rcases List.mem_append.mp hc with h | h
    · split at h
      · simp only [List.mem_cons, List.not_mem_nil, or_false] at h
        rcases h with rfl | rfl
        · left; rfl
        · right; simp
      · simp only [List.mem_cons, List.not_mem_nil, or_false] at h
        subst h
        right; simp
    · rcases ih c h with h' | h'
      · left; exact h'
      · right; simp [h']

theorem stringify_char_lt (p : TokenPayload) (ha : asciiSafe p.device_id)
    (hi : asciiSafe p.issued_at) (he : asciiSafe p.expires_at) :
    ∀ c ∈ stringifyPayload p, c.toNat < 256 := by
  intro c hc
  have hbs : backslashChar.toNat < 256 := by decide
  have hesc : ∀ (s : Str), asciiSafe s → ∀ x ∈ jsonEscape s, x.toNat < 256 := by
    intro s hs x hx
    rcases jsonEscape_subset s x hx with rfl | hmem
    · exact hbs
    · exact lt_trans (hs x hmem).2 (by norm_num)
  simp only [stringifyPayload, List.mem_append, List.mem_cons, List.not_mem_nil,
    or_false] at hc
  rcases hc with (((((hc | hc) | rfl | hc) | hc) | rfl | hc) | hc) | rfl | rfl
  · exact (show ∀ x ∈ litDeviceId, x.toNat < 256 by decide) c hc
  · exact hesc _ ha c hc
  · decide
  · exact (show ∀ x ∈ litIssuedAt, x.toNat < 256 by decide) c hc
  · exact hesc _ hi c hc
  · decide
  · exact (show ∀ x ∈ litExpiresAt, x.toNat < 256 by decide) c hc
  · exact hesc _ he c hc
  · decide
  · decide

theorem stringify_bytes_lt (p : TokenPayload) (ha : asciiSafe p.device_id)
    (hi : asciiSafe p.issued_at) (he : asciiSafe p.expires_at) :
    ∀ x ∈ strBytes (stringifyPayload p), x < 256 := by
  intro x hx
  simp only [strBytes, List.mem_map] at hx
  obtain ⟨c, hc, rfl⟩ := hx
  exact stringify_char_lt p ha hi he c hc

theorem splitChar_encodeToken (p : TokenPayload) (secret : Str)
    (hbytes : ∀ x ∈ strBytes (stringifyPayload p), x < 256) :
    splitChar '_' (encodeToken p secret) =
      [tokenTag, base64Encode (strBytes (stringifyPayload p)),
       hmacSha256Hex secret (base64Encode (strBytes (stringifyPayload p)))] := by
  unfold encodeToken
  exact splitChar_three '_' _ _ _ (by decide)
    (base64Encode_no_underscore _ hbytes) (hmacSha256Hex_no_underscore _ _)

theorem exceptOkBind {ε α β : Type} (a : α) (f : α → Except ε β) :
    (Except.ok a : Except ε α) >>= f = f a := rfl

theorem validateTokenBody_encodeToken (now : Int) (p : TokenPayload) (B secret : Str)
    (ha : asciiSafe p.device_id) (hi : asciiSafe p.issued_at) (he : asciiSafe p.expires_at)
    (hB : B ≠ []) (hs : secret ≠ []) :
    validateTokenBody now (encodeToken p secret) B secret =
      .ok (if p.device_id = B then
             (if expiredB now p = true then none else some (expectedInfo now p))
           else none) := by
  have hbytes := stringify_bytes_lt p ha hi he
  have htok : encodeToken p secret ≠ [] := by
    unfold encodeToken tokenTag
    simp
  have hsplit := splitChar_encodeToken p secret hbytes
  have htse : timingSafeEqual
      (strBytes (hmacSha256Hex secret (base64Encode (strBytes (stringifyPayload p)))))
      (strBytes (hmacSha256Hex secret (base64Encode (strBytes (stringifyPayload p)))))
      = .ok true := by
    unfold timingSafeEqual
    rw [if_pos rfl]
    simp
  unfold validateTokenBody
  rw [if_neg (by simp [htok, hB, hs])]
  simp only [hsplit, List.getD_cons_zero, List.getD_cons_succ, List.length_cons,
    List.length_nil, pure_bind, Option.getD_some]
  rw [if_neg (by simp)]
  rw [base64_roundtrip _ hbytes]
  simp only [Option.some_bind, bytesStr_strBytes, parsePayload_stringify]
  by_cases hdev : p.device_id = B
  · rw [if_neg (by simp [hdev]), if_pos hdev]
    rw [htse, exceptOkBind]
    rw [if_neg (by simp)]
    unfold expiredB expectedInfo
    split <;> rfl
  · rw [if_pos (by simp [hdev]), if_neg hdev]
    rfl

theorem validateToken_encodeToken (now : Int) (p : TokenPayload) (B secret : Str)
    (ha : asciiSafe p.device_id) (hi : asciiSafe p.issued_at) (he : asciiSafe p.expires_at)
    (hB : B ≠ []) (hs : secret ≠ []) :
    validateToken now (encodeToken p secret) B secret =
      if p.device_id = B then
        (if expiredB now p = true then none else some (expectedInfo now p))
      else none := by
  unfold validateToken
  rw [validateTokenBody_encodeToken now p B secret ha hi he hB hs]

theorem validateToken_empty_param (now : Int) (token deviceId secret : Str)
    (h : token = [] ∨ deviceId = [] ∨ secret = []) :
    validateToken now token deviceId secret = none := by
  unfold validateToken validateTokenBody
  rw [if_pos h]
  rfl

/-- A sample payload used by the concrete witnesses: device `dev1`,
issued at the start of 2024, expiring at the start of 2030 (epoch
ms 1893456000000). -/
def samplePayload : TokenPayload :=
  ⟨"dev1".toList, "2024-01-01T00:00:00.000Z".toList, "2030-01-01T00:00:00.000Z".toList⟩

theorem samplePayload_expires : jsDateValue samplePayload.expires_at = some 1893456000000 := by
  decide

/-! ### Claim theorems -/

/-- C1: Round-trip — for every payload with non-empty `device_id` and
`issued_at` and with `expires_at` strictly in the future, and every
non-empty secret, encoding the payload as
`token_<base64(JSON(p))>_<hex(hmac_sha256(s, base64_segment))>` and
validating the result against the payload's own `device_id` and the
same secret yields a non-null result whose `device_id`, `issued_at`
and `expires_at` equal those of the payload.  (Payload fields range
over printable ASCII, the embedding's string domain.) -/
theorem token_roundtrip (now : Int) (p : TokenPayload) (secret : Str)
    (hd : p.device_id ≠ []) (hiss : p.issued_at ≠ []) (hsec : secret ≠ [])
    (ha : asciiSafe p.device_id) (hi : asciiSafe p.issued_at) (he : asciiSafe p.expires_at)
    (te : Int) (hparse : jsDateValue p.expires_at = some te) (hfut : now < te) :
    ∃ info, validateToken now (encodeToken p secret) p.device_id secret = some info
      ∧ info.device_id = p.device_id ∧ info.issued_at = p.issued_at
      ∧ info.expires_at = p.expires_at := by
  refine ⟨expectedInfo now p, ?_, rfl, rfl, rfl⟩
  rw [validateToken_encodeToken now p p.device_id secret ha hi he hd hsec]
  rw [if_pos rfl, if_neg ?_]
  unfold expiredB
  rw [hparse]
  simp only [decide_eq_true_eq]
  omega

theorem token_roundtrip_witness :
    ∃ info, validateToken 0 (encodeToken samplePayload "secret1".toList)
        samplePayload.device_id "secret1".toList = some info
      ∧ info.device_id = samplePayload.device_id
      ∧ info.issued_at = samplePayload.issued_at
      ∧ info.expires_at = samplePayload.expires_at :=
  token_roundtrip 0 samplePayload "secret1".toList (by decide) (by decide) (by decide)
    (by decide) (by decide) (by decide) 1893456000000 samplePayload_expires (by decide)

/-- C3 counterexample: at the exact instant `now = expires_at`, the
code accepts the token (`validateToken` tests `now > expiresAt`
strictly), so the claim that a token is rejected at or after its
`expires_at` instant is false at that boundary. -/
theorem expiry_exact_instant_accepted :
    jsDateValue samplePayload.expires_at = some 1893456000000 ∧
    validateToken 1893456000000 (encodeToken samplePayload "secret1".toList)
        samplePayload.device_id "secret1".toList ≠ none := by
  refine ⟨samplePayload_expires, ?_⟩
  rw [validateToken_encodeToken 1893456000000 samplePayload samplePayload.device_id
    "secret1".toList (by decide) (by decide) (by decide) (by decide) (by decide)]
  rw [if_pos rfl, if_neg ?_]
  · simp
  · unfold expiredB
    rw [samplePayload_expires]
    simp

/-- C3 (amended): a token is rejected exactly when the current time is
strictly past `expires_at`: `validateToken` returns null whenever
`now > expires_at`, and returns a non-null result (with matching
`expires_at`) whenever `now ≤ expires_at` — in particular it still
accepts at the exact instant `now = expires_at`, and accepts whenever
`expires_at` is strictly in the future. -/
theorem expiry_boundary_strict (now : Int) (p : TokenPayload) (secret : Str)
    (hd : p.device_id ≠ []) (hsec : secret ≠ [])
    (ha : asciiSafe p.device_id) (hi : asciiSafe p.issued_at) (he : asciiSafe p.expires_at)
    (te : Int) (hparse : jsDateValue p.expires_at = some te) :
    (te < now → validateToken now (encodeToken p secret) p.device_id secret = none)
    ∧ (now ≤ te → ∃ info,
        validateToken now (encodeToken p secret) p.device_id secret = some info
        ∧ info.expires_at = p.expires_at) := by
  rw [validateToken_encodeToken now p p.device_id secret ha hi he hd hsec]
  rw [if_pos rfl]
  constructor
  · intro hlt
    rw [if_pos ?_]
    unfold expiredB
    rw [hparse]
    simpa using hlt
  · intro hle
    rw [if_neg ?_]
    · exact ⟨expectedInfo now p, rfl, rfl⟩
    · unfold expiredB
      rw [hparse]
      simp only [decide_eq_true_eq]
      omega

theorem expiry_boundary_strict_witness :
    ((1893456000000 : Int) < 1893456000001 →
      validateToken 1893456000001 (encodeToken samplePayload "secret1".toList)
        samplePayload.device_id "secret1".toList = none)
    ∧ ((1893456000001 : Int) ≤ 1893456000000 → ∃ info,
        validateToken 1893456000001 (encodeToken samplePayload "secret1".toList)
          samplePayload.device_id "secret1".toList = some info
        ∧ info.expires_at = samplePayload.expires_at) :=
  expiry_boundary_strict 1893456000001 samplePayload "secret1".toList (by decide) (by decide)
    (by decide) (by decide) (by decide) 1893456000000 samplePayload_expires

/-- C4: Device binding — a token correctly encoded and signed for
device `p.device_id` under any secret, presented with any other
device identifier `B`, always fails validation, even though its
signature is valid. -/
theorem device_binding (now : Int) (p : TokenPayload) (B secret : Str)
    (ha : asciiSafe p.device_id) (hi : asciiSafe p.issued_at) (he : asciiSafe p.expires_at)
    (hne : p.device_id ≠ B) :
    validateToken now (encodeToken p secret) B secret = none := by
  by_cases hsec : secret = []
  · exact validateToken_empty_param _ _ _ _ (Or.inr (Or.inr hsec))
  · by_cases hB : B = []
    · exact validateToken_empty_param _ _ _ _ (Or.inr (Or.inl hB))
    · rw [validateToken_encodeToken now p B secret ha hi he hB hsec]
      rw [if_neg hne]

theorem device_binding_witness :
    validateToken 0 (encodeToken samplePayload "secret1".toList) "dev2".toList
      "secret1".toList = none :=
  device_binding 0 samplePayload "dev2".toList "secret1".toList (by decide) (by decide)
    (by decide) (by decide)

/-- C7: Total, exception-free validation — for every input triple
(including empty strings, malformed tokens, undecodable payloads,
unparseable dates, and signatures whose byte length differs from the
64-byte hex digest, where `crypto.timingSafeEqual` itself throws), the
exported `validateToken` resolves to an ordinary `Option` result: when
the body runs clean the wrapper returns its value, and when the body
throws the wrapper returns `null` — no exception ever propagates to
the caller. -/
theorem validateToken_total (now : Int) (token deviceId secret : Str) :
    (∃ r, validateTokenBody now token deviceId secret = .ok r
        ∧ validateToken now token deviceId secret = r)
    ∨ (∃ e, validateTokenBody now token deviceId secret = .error e
        ∧ validateToken now token deviceId secret = none) := by
  cases h : validateTokenBody now token deviceId secret with
  | ok r =>
    left
    exact ⟨r, rfl, by unfold validateToken; rw [h]⟩
  | error e =>
    right
    exact ⟨e, rfl, by unfold validateToken; rw [h]⟩

theorem shouldRotateToken_some (now : Int) (info : TokenInfo) :
    shouldRotateToken now (some info) =
      match jsDateValue info.expires_at with
      | none => false
      | some te => decide (te - now < 6 * 60 * 60 * 1000) := rfl

/-- C9: Rotation threshold — `shouldRotateToken` is true for a null
result, true for a result whose `expires_at` lies less than 6 hours
(21600000 ms) after the current time, and false for one whose
`expires_at` is 6 hours or more in the future. -/
theorem rotation_threshold (now te : Int) (info : TokenInfo)
    (hparse : jsDateValue info.expires_at = some te) :
    shouldRotateToken now none = true
    ∧ (te - now < 21600000 → shouldRotateToken now (some info) = true)
    ∧ (21600000 ≤ te - now → shouldRotateToken now (some info) = false) := by
  refine ⟨rfl, ?_, ?_⟩
  · intro h
    rw [shouldRotateToken_some]
    simp only [hparse, decide_eq_true_eq]
    omega
  · intro h
    rw [shouldRotateToken_some]
    simp only [hparse, decide_eq_false_iff_not]
    omega

/-- A sample validation result used by the rotation witness, expiring
at epoch ms 1893456000000. -/
def sampleInfo : TokenInfo :=
  ⟨"dev1".toList, "2024-01-01T00:00:00.000Z".toList, "2030-01-01T00:00:00.000Z".toList, none⟩

theorem rotation_threshold_witness :
    shouldRotateToken 1893438000000 none = true
    ∧ ((1893456000000 : Int) - 1893438000000 < 21600000 →
        shouldRotateToken 1893438000000 (some sampleInfo) = true)
    ∧ ((21600000 : Int) ≤ 1893456000000 - 1893438000000 →
        shouldRotateToken 1893438000000 (some sampleInfo) = false) :=
  rotation_threshold 1893438000000 1893456000000 sampleInfo (by decide)

/-- C2 counterexample: the image-serving endpoint consults the single
module-level `tokenRateLimiter`, constructed with the defaults
`maxAttempts = 10`, `windowMs = 60000`; its `maxAttempts` is 10, not
60, and it is not a distinct instance — so no separate 60-per-minute
limiter governs the screenshot endpoint. -/
theorem screenshot_limiter_not_sixty :
    screenshotEndpointLimiter = tokenRateLimiter
    ∧ screenshotEndpointLimiter.maxAttempts = 10
    ∧ ¬(screenshotEndpointLimiter.maxAttempts = 60) :=
  ⟨rfl, rfl, by decide⟩

/-- C2 (amended): the image-serving endpoint is governed by the same
singleton `tokenRateLimiter` that counts token-validation attempts,
with `maxAttempts = 10` and `windowDuration = 60000 ms`; the repository
has no distinct, coarser limiter instance for the screenshot route. -/
theorem screenshot_limiter_shared_config :
    screenshotEndpointLimiter = tokenRateLimiter
    ∧ tokenRateLimiter.maxAttempts = 10
    ∧ tokenRateLimiter.windowMs = 60000 :=
  ⟨rfl, rfl, rfl⟩

/-! ### Rate limiter lemmas -/

theorem lookup_set_self (m : List (Str × RateLimitEntry)) (k : Str) (v : RateLimitEntry) :
    lookupEntry (setEntry m k v) k = some v := by
  induction m with
  | nil => simp [setEntry, lookupEntry]
  | cons kv rest ih =>
    obtain ⟨k', e⟩ := kv
    by_cases h : k' = k
    · subst h
      simp [setEntry, lookupEntry]
    · simp only [setEntry, if_neg h, lookupEntry]
      exact ih

theorem lookup_set_ne (m : List (Str × RateLimitEntry)) (k k' : Str) (v : RateLimitEntry)
    (h : k ≠ k') : lookupEntry (setEntry m k v) k' = lookupEntry m k' := by
  induction m with
  | nil => simp [setEntry, lookupEntry, h]
  | cons kv rest ih =>
    obtain ⟨k0, e⟩ := kv
    by_cases h0 : k0 = k
    · subst h0
      simp only [setEntry, if_pos rfl, lookupEntry]
      rw [if_neg h, if_neg h]
    · simp only [setEntry, if_neg h0, lookupEntry]
      by_cases h1 : k0 = k'
      · rw [if_pos h1, if_pos h1]
      · rw [if_neg h1, if_neg h1, ih]

theorem mem_setEntry (m : List (Str × RateLimitEntry)) (k : Str) (v : RateLimitEntry)
    (kv : Str × RateLimitEntry) (h : kv ∈ setEntry m k v) : kv = (k, v) ∨ kv ∈ m := by
  induction m with
  | nil => simpa [setEntry] using h
  | cons hd rest ih =>
    by_cases h0 : hd.1 = k
    · rw [show (hd :: rest : List (Str × RateLimitEntry)) = (hd.1, hd.2) :: rest by simp,
        setEntry, if_pos h0] at h
      rcases List.mem_cons.mp h with rfl | h
      · left; rfl
      · right; simp [h]
    · rw [show (hd :: rest : List (Str × RateLimitEntry)) = (hd.1, hd.2) :: rest by simp,
        setEntry, if_neg h0] at h
      rcases List.mem_cons.mp h with rfl | h
      · right; simp
      · rcases ih h with h' | h'
        · left; exact h'
        · right; simp [h']

theorem lookup_mem (m : List (Str × RateLimitEntry)) (k : Str) (e : RateLimitEntry)
    (h : lookupEntry m k = some e) : (k, e) ∈ m := by
  induction m with
  | nil => simp [lookupEntry] at h
  | cons hd rest ih =>
    obtain ⟨k0, e0⟩ := hd
    simp only [lookupEntry] at h
    by_cases h0 : k0 = k
    · rw [if_pos h0] at h
      obtain rfl := h0
      obtain rfl := Option.some.inj h
      exact List.mem_cons_self _ _
    · rw [if_neg h0] at h
      exact List.mem_cons_of_mem _ (ih h)

/-- The four behavioural cases of `isAllowed`, stated as rewrite rules. -/
theorem isAllowed_fresh (rl : TokenRateLimiter) (k : Str) (now : Int)
    (h : lookupEntry rl.attempts k = none) :
    rl.isAllowed k now = (true, { rl with attempts := setEntry rl.attempts k ⟨1, now⟩ }) := by
  unfold TokenRateLimiter.isAllowed
  rw [h]

theorem isAllowed_reset_window (rl : TokenRateLimiter) (k : Str) (now : Int)
    (e : RateLimitEntry) (h : lookupEntry rl.attempts k = some e)
    (hw : rl.windowMs < now - e.firstTime) :
    rl.isAllowed k now = (true, { rl with attempts := setEntry rl.attempts k ⟨1, now⟩ }) := by
  unfold TokenRateLimiter.isAllowed
  rw [h]
  dsimp only
  rw [if_pos hw]

theorem isAllowed_deny (rl : TokenRateLimiter) (k : Str) (now : Int)
    (e : RateLimitEntry) (h : lookupEntry rl.attempts k = some e)
    (hw : ¬(rl.windowMs < now - e.firstTime)) (hc : rl.maxAttempts ≤ e.count) :
    rl.isAllowed k now = (false, rl) := by
  unfold TokenRateLimiter.isAllowed
  rw [h]
  dsimp only
  rw [if_neg hw, if_pos hc]

theorem isAllowed_incr (rl : TokenRateLimiter) (k : Str) (now : Int)
    (e : RateLimitEntry) (h : lookupEntry rl.attempts k = some e)
    (hw : ¬(rl.windowMs < now - e.firstTime)) (hc : ¬(rl.maxAttempts ≤ e.count)) :
    rl.isAllowed k now =
      (true, { rl with attempts := setEntry rl.attempts k ⟨e.count + 1, e.firstTime⟩ }) := by
  unfold TokenRateLimiter.isAllowed
  rw [h]
  dsimp only
  rw [if_neg hw, if_neg hc]

/-- `isAllowed` never changes the configuration fields. -/
theorem isAllowed_config (rl : TokenRateLimiter) (k : Str) (now : Int) :
    (rl.isAllowed k now).2.maxAttempts = rl.maxAttempts
    ∧ (rl.isAllowed k now).2.windowMs = rl.windowMs := by
  unfold TokenRateLimiter.isAllowed
  cases lookupEntry rl.attempts k with
  | none => exact ⟨rfl, rfl⟩
  | some e =>
    dsimp only
    split
    · exact ⟨rfl, rfl⟩
    · split
      · exact ⟨rfl, rfl⟩
      · exact ⟨rfl, rfl⟩

/-- An `isAllowed` call for key `X` leaves every other key's entry
untouched. -/
theorem isAllowed_frame (rl : TokenRateLimiter) (X Y : Str) (hne : X ≠ Y) (t : Int) :
    lookupEntry (rl.isAllowed X t).2.attempts Y = lookupEntry rl.attempts Y := by
  cases h : lookupEntry rl.attempts X with
  | none =>
    rw [isAllowed_fresh rl X t h]
    exact lookup_set_ne _ _ _ _ hne
  | some e =>
    by_cases hw : rl.windowMs < t - e.firstTime
    · rw [isAllowed_reset_window rl X t e h hw]
      exact lookup_set_ne _ _ _ _ hne
    · by_cases hc : rl.maxAttempts ≤ e.count
      · rw [isAllowed_deny rl X t e h hw hc]
      · rw [isAllowed_incr rl X t e h hw hc]
        exact lookup_set_ne _ _ _ _ hne

/-- A whole run of `isAllowed` calls for `X` leaves `Y`'s entry and the
configuration untouched. -/
theorem isAllowedRun_frame (X Y : Str) (hne : X ≠ Y) (ts : List Int) :
    ∀ rl : TokenRateLimiter,
      lookupEntry (isAllowedRun rl X ts).2.attempts Y = lookupEntry rl.attempts Y
      ∧ (isAllowedRun rl X ts).2.maxAttempts = rl.maxAttempts
      ∧ (isAllowedRun rl X ts).2.windowMs = rl.windowMs := by
  induction ts with
  | nil => exact fun rl => ⟨rfl, rfl, rfl⟩
  | cons t ts ih =>
    intro rl
    simp only [isAllowedRun]
    obtain ⟨ih1, ih2, ih3⟩ := ih (rl.isAllowed X t).2
    obtain ⟨hc1, hc2⟩ := isAllowed_config rl X t
    exact ⟨ih1.trans (isAllowed_frame rl X Y hne t), ih2.trans hc1, ih3.trans hc2⟩

/-- The boolean verdict of `isAllowed` depends only on the key's entry
and the configuration. -/
theorem isAllowed_fst_congr (rl1 rl2 : TokenRateLimiter) (Y : Str) (now : Int)
    (hl : lookupEntry rl1.attempts Y = lookupEntry rl2.attempts Y)
    (hm : rl1.maxAttempts = rl2.maxAttempts) (hw : rl1.windowMs = rl2.windowMs) :
    (rl1.isAllowed Y now).1 = (rl2.isAllowed Y now).1 := by
  cases h : lookupEntry rl2.attempts Y with
  | none =>
    rw [isAllowed_fresh rl1 Y now (hl.trans h), isAllowed_fresh rl2 Y now h]
  | some e =>
    by_cases hwin : rl2.windowMs < now - e.firstTime
    · rw [isAllowed_reset_window rl1 Y now e (hl.trans h) (hw ▸ hwin),
        isAllowed_reset_window rl2 Y now e h hwin]
    · by_cases hcnt : rl2.maxAttempts ≤ e.count
      · rw [isAllowed_deny rl1 Y now e (hl.trans h) (hw ▸ hwin) (hm ▸ hcnt),
          isAllowed_deny rl2 Y now e h hwin hcnt]
      · rw [isAllowed_incr rl1 Y now e (hl.trans h) (hw ▸ hwin) (hm ▸ hcnt),
          isAllowed_incr rl2 Y now e h hwin hcnt]

/-- `getRemainingAttempts` depends only on the key's entry and the
configuration. -/
theorem getRemaining_congr (rl1 rl2 : TokenRateLimiter) (Y : Str) (now : Int)
    (hl : lookupEntry rl1.attempts Y = lookupEntry rl2.attempts Y)
    (hm : rl1.maxAttempts = rl2.maxAttempts) (hw : rl1.windowMs = rl2.windowMs) :
    rl1.getRemainingAttempts Y now = rl2.getRemainingAttempts Y now := by
  unfold TokenRateLimiter.getRemainingAttempts
  rw [hl, hm, hw]

/-- C5: Rate-limiter saturation and fixed-window reset — for a
`TokenRateLimiter` constructed with `maxAttempts = 5` and
`windowMs = 1000`, six `isAllowed` calls for one key whose first five
follow-ups all fall within 1000 ms of the first call yield
`true, true, true, true, true, false`; a seventh call made strictly
more than 1000 ms after the window started yields `true` again, and
resets the entry to count 1 with the new window start. -/
theorem limiter_saturation_reset (k : Str) (t0 t1 t2 t3 t4 t5 t6 : Int)
    (h1 : t1 - t0 ≤ 1000) (h2 : t2 - t0 ≤ 1000) (h3 : t3 - t0 ≤ 1000)
    (h4 : t4 - t0 ≤ 1000) (h5 : t5 - t0 ≤ 1000) (h6 : 1000 < t6 - t0) :
    (isAllowedRun ⟨5, 1000, []⟩ k [t0, t1, t2, t3, t4, t5, t6]).1
        = [true, true, true, true, true, false, true]
    ∧ lookupEntry (isAllowedRun ⟨5, 1000, []⟩ k [t0, t1, t2, t3, t4, t5, t6]).2.attempts k
        = some ⟨1, t6⟩ := by
  have look : ∀ (c : Nat) (t : Int),
      lookupEntry ((⟨5, 1000, [(k, ⟨c, t⟩)]⟩ : TokenRateLimiter)).attempts k = some ⟨c, t⟩ := by
    intro c t
    simp [lookupEntry]
  have set1 : ∀ (c c' : Nat) (t t' : Int),
      setEntry ((⟨5, 1000, [(k, ⟨c, t⟩)]⟩ : TokenRateLimiter)).attempts k ⟨c', t'⟩
        = [(k, ⟨c', t'⟩)] := by
    intro c c' t t'
    simp [setEntry]
  have e1 : (⟨5, 1000, []⟩ : TokenRateLimiter).isAllowed k t0
      = (true, ⟨5, 1000, [(k, ⟨1, t0⟩)]⟩) := by
    rw [isAllowed_fresh _ _ _ (by simp [lookupEntry])]
    rfl
  have step : ∀ (c : Nat) (t : Int), c < 5 → t - t0 ≤ 1000 →
      (⟨5, 1000, [(k, ⟨c, t0⟩)]⟩ : TokenRateLimiter).isAllowed k t
        = (true, ⟨5, 1000, [(k, ⟨c + 1, t0⟩)]⟩) := by
    intro c t hc ht
    rw [isAllowed_incr _ _ _ ⟨c, t0⟩ (look c t0) (by dsimp only; omega) (by dsimp only; omega)]
    rw [show ({ maxAttempts := 5, windowMs := 1000, attempts := [(k, ⟨c, t0⟩)] } :
      TokenRateLimiter).attempts = [(k, (⟨c, t0⟩ : RateLimitEntry))] from rfl] at *
    rw [show setEntry [(k, (⟨c, t0⟩ : RateLimitEntry))] k ⟨c + 1, t0⟩
      = [(k, ⟨c + 1, t0⟩)] by simp [setEntry]]
  have e6 : (⟨5, 1000, [(k, ⟨5, t0⟩)]⟩ : TokenRateLimiter).isAllowed k t5
      = (false, ⟨5, 1000, [(k, ⟨5, t0⟩)]⟩) := by
    rw [isAllowed_deny _ _ _ ⟨5, t0⟩ (look 5 t0) (by dsimp only; omega) (by dsimp only; omega)]
  have e7 : (⟨5, 1000, [(k, ⟨5, t0⟩)]⟩ : TokenRateLimiter).isAllowed k t6
      = (true, ⟨5, 1000, [(k, ⟨1, t6⟩)]⟩) := by
    rw [isAllowed_reset_window _ _ _ ⟨5, t0⟩ (look 5 t0) (by dsimp only; omega)]
    rw [show setEntry ((⟨5, 1000, [(k, ⟨5, t0⟩)]⟩ : TokenRateLimiter)).attempts k ⟨1, t6⟩
      = [(k, ⟨1, t6⟩)] from set1 5 1 t0 t6]
  simp only [isAllowedRun, e1, step 1 t1 (by omega) h1, step 2 t2 (by omega) h2,
    step 3 t3 (by omega) h3, step 4 t4 (by omega) h4, e6, e7,
    step 1 t1, look]
  constructor <;> trivial

theorem limiter_saturation_reset_witness :
    ((isAllowedRun ⟨5, 1000, []⟩ "d".toList [0, 100, 200, 300, 400, 500, 1500]).1
        = [true, true, true, true, true, false, true]
    ∧ lookupEntry
        (isAllowedRun ⟨5, 1000, []⟩ "d".toList [0, 100, 200, 300, 400, 500, 1500]).2.attempts
        "d".toList = some ⟨1, 1500⟩) :=
  limiter_saturation_reset "d".toList 0 100 200 300 400 500 1500 (by decide) (by decide)
    (by decide) (by decide) (by decide) (by decide)

/-- C6: Key independence — for distinct keys `X` and `Y`, any sequence
of `isAllowed` calls for `X` (of any length, at any times) leaves `Y`'s
entry unchanged, so a subsequent `isAllowed` verdict and
`getRemainingAttempts` value for `Y` are the same as if the calls for
`X` had never happened. -/
theorem limiter_key_independence (rl : TokenRateLimiter) (X Y : Str) (hne : X ≠ Y)
    (ts : List Int) (now : Int) :
    lookupEntry (isAllowedRun rl X ts).2.attempts Y = lookupEntry rl.attempts Y
    ∧ ((isAllowedRun rl X ts).2.isAllowed Y now).1 = (rl.isAllowed Y now).1
    ∧ (isAllowedRun rl X ts).2.getRemainingAttempts Y now
        = rl.getRemainingAttempts Y now := by
  obtain ⟨h1, h2, h3⟩ := isAllowedRun_frame X Y hne ts rl
  exact ⟨h1, isAllowed_fst_congr _ _ Y now h1 h2 h3, getRemaining_congr _ _ Y now h1 h2 h3⟩

theorem limiter_key_independence_witness :
    lookupEntry (isAllowedRun ⟨5, 1000, []⟩ "x".toList [0, 0, 0, 0, 0, 0]).2.attempts
        "y".toList
      = lookupEntry ((⟨5, 1000, []⟩ : TokenRateLimiter)).attempts "y".toList
    ∧ ((isAllowedRun ⟨5, 1000, []⟩ "x".toList [0, 0, 0, 0, 0, 0]).2.isAllowed
        "y".toList 0).1
      = ((⟨5, 1000, []⟩ : TokenRateLimiter).isAllowed "y".toList 0).1
    ∧ (isAllowedRun ⟨5, 1000, []⟩ "x".toList [0, 0, 0, 0, 0, 0]).2.getRemainingAttempts
        "y".toList 0
      = (⟨5, 1000, []⟩ : TokenRateLimiter).getRemainingAttempts "y".toList 0 :=
  limiter_key_independence ⟨5, 1000, []⟩ "x".toList "y".toList (by decide) [0, 0, 0, 0, 0, 0] 0

/-- C8: Limiter-first gating — for any request to the screenshot route
with a non-empty device id whose `isAllowed` check comes back false,
the handler answers 429 (`rateLimited`) regardless of the presented
authorization header, and `validateToken` (the HMAC work) is never
invoked. -/
theorem limiter_first_gating (rl : TokenRateLimiter) (deviceId authHeader secret : Str)
    (now : Int) (screenshot : Option (List Nat))
    (hdev : deviceId ≠ []) (hdenied : (rl.isAllowed deviceId now).1 = false) :
    (screenshotHandler rl deviceId authHeader secret now screenshot).outcome
        = HttpOutcome.rateLimited
    ∧ (screenshotHandler rl deviceId authHeader secret now screenshot).validateCalled
        = false := by
  unfold screenshotHandler
  rw [if_neg hdev]
  simp only [hdenied]
  exact ⟨rfl, rfl⟩

theorem limiter_first_gating_witness :
    ((⟨10, 60000, [("d".toList, ⟨10, 0⟩)]⟩ : TokenRateLimiter).isAllowed "d".toList 0).1
        = false
    ∧ (screenshotHandler ⟨10, 60000, [("d".toList, ⟨10, 0⟩)]⟩ "d".toList
        "Bearer sometoken".toList "secret1".toList 0 none).outcome = HttpOutcome.rateLimited
    ∧ (screenshotHandler ⟨10, 60000, [("d".toList, ⟨10, 0⟩)]⟩ "d".toList
        "Bearer sometoken".toList "secret1".toList 0 none).validateCalled = false := by
  have hdenied : ((⟨10, 60000, [("d".toList, ⟨10, 0⟩)]⟩ : TokenRateLimiter).isAllowed
      "d".toList 0).1 = false := by decide
  obtain ⟨h1, h2⟩ := limiter_first_gating ⟨10, 60000, [("d".toList, ⟨10, 0⟩)]⟩ "d".toList
    "Bearer sometoken".toList "secret1".toList 0 none (by decide) hdenied
  exact ⟨hdenied, h1, h2⟩

/-! ### Reachable limiter states (C10) -/

/-- States reachable from a freshly constructed
`TokenRateLimiter(max, win)` under its public operations. -/
inductive Reaches (max : Nat) (win : Int) : TokenRateLimiter → Prop
  | init : Reaches max win ⟨max, win, []⟩
  | step (rl : TokenRateLimiter) (k : Str) (now : Int) :
      Reaches max win rl → Reaches max win (rl.isAllowed k now).2
  | wipe (rl : TokenRateLimiter) (k : Str) :
      Reaches max win rl → Reaches max win (rl.reset k)
  | sweep (rl : TokenRateLimiter) (now : Int) :
      Reaches max win rl → Reaches max win (rl.cleanup now)

theorem reaches_config (max : Nat) (win : Int) (rl : TokenRateLimiter)
    (hr : Reaches max win rl) : rl.maxAttempts = max ∧ rl.windowMs = win := by
  induction hr with
  | init => exact ⟨rfl, rfl⟩
  | step rl k now _ ih =>
    obtain ⟨h1, h2⟩ := isAllowed_config rl k now
    exact ⟨h1.trans ih.1, h2.trans ih.2⟩
  | wipe rl k _ ih => exact ih
  | sweep rl now _ ih => exact ih

theorem reaches_count_le (max : Nat) (win : Int) (rl : TokenRateLimiter)
    (hmax : 1 ≤ max) (hr : Reaches max win rl) :
    ∀ kv ∈ rl.attempts, kv.2.count ≤ max := by
  induction hr with
  | init => simp
  | step rl k now hr ih =>
    intro kv hkv
    have hcfg := reaches_config max win rl hr
    cases h : lookupEntry rl.attempts k with
    | none =>
      rw [isAllowed_fresh rl k now h] at hkv
      rcases mem_setEntry _ _ _ _ hkv with rfl | hmem
      · exact hmax
      · exact ih kv hmem
    | some e =>
      by_cases hw : rl.windowMs < now - e.firstTime
      · rw [isAllowed_reset_window rl k now e h hw] at hkv
        rcases mem_setEntry _ _ _ _ hkv with rfl | hmem
        · exact hmax
        · exact ih kv hmem
      · by_cases hc : rl.maxAttempts ≤ e.count
        · rw [isAllowed_deny rl k now e h hw hc] at hkv
          exact ih kv hkv
        · rw [isAllowed_incr rl k now e h hw hc] at hkv
          rcases mem_setEntry _ _ _ _ hkv with rfl | hmem
          · have : e.count + 1 ≤ rl.maxAttempts := by omega
            exact this.trans_eq hcfg.1
          · exact ih kv hmem
  | wipe rl k hr ih =>
    intro kv hkv
    exact ih kv (List.mem_of_mem_filter hkv)
  | sweep rl now hr ih =>
    intro kv hkv
    exact ih kv (List.mem_of_mem_filter hkv)

/-- C10 counterexample, refuting two parts of the claim as stated:
with `maxAttempts = 0` the state after a single `isAllowed` call is
reachable yet holds an entry whose count (1) exceeds `maxAttempts`
(0) — and that call was allowed despite the zero limit; and for a
saturated key, at the instant exactly `windowMs` after the window's
first attempt (`now = firstTime + windowMs`) the key is still denied,
not allowed again. -/
theorem limiter_invariant_violation :
    (Reaches 0 1000 ((⟨0, 1000, []⟩ : TokenRateLimiter).isAllowed "k".toList 0).2
      ∧ lookupEntry ((⟨0, 1000, []⟩ : TokenRateLimiter).isAllowed "k".toList 0).2.attempts
          "k".toList = some ⟨1, 0⟩
      ∧ ((⟨0, 1000, []⟩ : TokenRateLimiter).isAllowed "k".toList 0).2.maxAttempts < 1
      ∧ ((⟨0, 1000, []⟩ : TokenRateLimiter).isAllowed "k".toList 0).1 = true)
    ∧ ((⟨1, 1000, [("k".toList, ⟨1, 0⟩)]⟩ : TokenRateLimiter).isAllowed "k".toList 1000).1
        = false := by
  refine ⟨⟨Reaches.step _ _ _ Reaches.init, by decide, by decide, by decide⟩, by decide⟩

/-- C10 (amended): for every limiter constructed with `maxAttempts ≥ 1`
(which covers every instance the repository constructs), every
reachable state's entries have `count ≤ maxAttempts`; a denied
`isAllowed` call returns the state unchanged (neither the count nor
the window start moves); and a saturated key is allowed again exactly
when strictly more than `windowMs` has elapsed since the window's
first attempt. -/
theorem limiter_invariant (max : Nat) (win : Int) (rl : TokenRateLimiter)
    (hmax : 1 ≤ max) (hr : Reaches max win rl) :
    (∀ kv ∈ rl.attempts, kv.2.count ≤ max)
    ∧ (∀ (k : Str) (e : RateLimitEntry) (now : Int),
        lookupEntry rl.attempts k = some e → ¬(win < now - e.firstTime) → max ≤ e.count →
        rl.isAllowed k now = (false, rl))
    ∧ (∀ (k : Str) (e : RateLimitEntry) (now : Int),
        lookupEntry rl.attempts k = some e → max ≤ e.count →
        ((rl.isAllowed k now).1 = true ↔ win < now - e.firstTime)) := by
  obtain ⟨hm, hw⟩ := reaches_config max win rl hr
  refine ⟨reaches_count_le max win rl hmax hr, ?_, ?_⟩
  · intro k e now hl hwin hcnt
    exact isAllowed_deny rl k now e hl (hw ▸ hwin) (hm ▸ hcnt)
  · intro k e now hl hcnt
    by_cases hwin : rl.windowMs < now - e.firstTime
    · rw [isAllowed_reset_window rl k now e hl hwin]
      simpa [hw] using hw ▸ hwin
    · rw [isAllowed_deny rl k now e hl hwin (hm ▸ hcnt)]
      constructor
      · intro hfalse
        exact absurd hfalse (by simp)
      · intro hcontra
        exact absurd (hw ▸ hcontra) hwin

theorem limiter_invariant_witness :
    (1 ≤ 5)
    ∧ ((∀ kv ∈ ((⟨5, 1000, []⟩ : TokenRateLimiter).isAllowed "k".toList 0).2.attempts,
          kv.2.count ≤ 5)
      ∧ (∀ (k : Str) (e : RateLimitEntry) (now : Int),
          lookupEntry ((⟨5, 1000, []⟩ : TokenRateLimiter).isAllowed "k".toList 0).2.attempts k
            = some e → ¬((1000 : Int) < now - e.firstTime) → 5 ≤ e.count →
          ((⟨5, 1000, []⟩ : TokenRateLimiter).isAllowed "k".toList 0).2.isAllowed k now
            = (false, ((⟨5, 1000, []⟩ : TokenRateLimiter).isAllowed "k".toList 0).2))
      ∧ (∀ (k : Str) (e : RateLimitEntry) (now : Int),
          lookupEntry ((⟨5, 1000, []⟩ : TokenRateLimiter).isAllowed "k".toList 0).2.attempts k
            = some e → 5 ≤ e.count →
          ((((⟨5, 1000, []⟩ : TokenRateLimiter).isAllowed "k".toList 0).2.isAllowed k now).1
              = true ↔ (1000 : Int) < now - e.firstTime))) :=
  ⟨by decide,
   limiter_invariant 5 1000 ((⟨5, 1000, []⟩ : TokenRateLimiter).isAllowed "k".toList 0).2
     (by decide) (Reaches.step _ _ _ Reaches.init)⟩

end HAAddons
